import Mathlib

/-!
Shallow embedding of the Resource Assignment & Simulation Orchestration
Engine of the AI-Based-Business-Process-Model frontend
(WorkforcePage.tsx, WorkforceAllocation.tsx) and of the realtime chat
transport (FloatingChatbot).  JavaScript numbers are modelled as
rationals, JavaScript arrays as Lean lists, and a JS object used as a
string-keyed record as an association list that is read and written at
the first matching key (object keys are unique, so this is exact).
-/

namespace BPM

/-- Employee record shared by WorkforcePage.tsx and WorkforceAllocation.tsx. -/
structure Employee where
  id : String
  name : String
  role : String
  efficiency : ℚ
  deriving DecidableEq

/-- Seed staff (`initialEmployees` in both workforce files). -/
def emp1 : Employee := ⟨"emp-1", "Alice Chen", "Snr. Analyst", 95⟩

def emp2 : Employee := ⟨"emp-2", "Bob Smith", "Approver", 78⟩

def emp3 : Employee := ⟨"emp-3", "Charlie D", "Clerk", 82⟩

def emp4 : Employee := ⟨"emp-4", "Dana Lee", "QA Engineer", 88⟩

def emp5 : Employee := ⟨"emp-5", "Eve Park", "Snr. Approver", 91⟩

def emp6 : Employee := ⟨"emp-6", "Frank Wu", "Analyst", 75⟩

def initialEmployees : List Employee := [emp1, emp2, emp3, emp4, emp5, emp6]

/-- Source or destination of a @hello-pangea/dnd gesture: droppable id plus index. -/
structure DndLocation where
  droppableId : String
  index : Nat
  deriving DecidableEq

/-- Outcome of a drag gesture; `destination` is absent when the item is
dropped outside every droppable. -/
structure DropResult where
  source : DndLocation
  destination : Option DndLocation
  deriving DecidableEq

/-- JavaScript `list.splice(i, 0, a)`: insert `a` at position `i`, with `i`
clamped to the length of the list (past-the-end inserts append). -/
def spliceInsert (l : List α) (i : Nat) (a : α) : List α :=
  l.take i ++ a :: l.drop i

/-- JS `s.startsWith(pre)`, written over the character list so that it
computes by structural recursion. -/
def strStartsWith (s pre : String) : Bool :=
  pre.data.isPrefixOf s.data

/-- Drop the first `n` characters of a string (structurally recursive form of
`String.drop`). -/
def strDrop (s : String) (n : Nat) : String :=
  String.mk (s.data.drop n)

/-! ### WorkforceAllocation.tsx -/

/-- State of the WorkforceAllocation component: its two droppable lists. -/
structure WAState where
  availableStaff : List Employee
  assignedStaff : List Employee
  deriving DecidableEq

/-- The list the component reads for a droppable id: the ternary
`id === 'available' ? availableStaff : assignedStaff`. -/
def WAState.list (st : WAState) (d : String) : List Employee :=
  if d = "available" then st.availableStaff else st.assignedStaff

/-- `onDragEnd` of WorkforceAllocation.tsx.  On a stale gesture (source index
out of range) the TS code would splice the JS value `undefined` into an
`Employee[]`, which `List Employee` cannot represent; the embedding leaves the
state unchanged in that case and every theorem below assumes the in-range
precondition, matching the spec's "silent no-op" reading of stale gestures. -/
def WAState.onDragEnd (st : WAState) (result : DropResult) : WAState :=
  match result.destination with
  | none => st
  | some destination =>
    let sourceList := if result.source.droppableId = "available" then st.availableStaff else st.assignedStaff
    let destList := if destination.droppableId = "available" then st.availableStaff else st.assignedStaff
    if result.source.droppableId = destination.droppableId then
      match sourceList[result.source.index]? with
      | none => st
      | some reorderedItem =>
        let items := spliceInsert (sourceList.eraseIdx result.source.index) destination.index reorderedItem
        if result.source.droppableId = "available" then { st with availableStaff := items }
        else { st with assignedStaff := items }
    else
      match sourceList[result.source.index]? with
      | none => st
      | some movedItem =>
        let sourceClone := sourceList.eraseIdx result.source.index
        let destClone := spliceInsert destList destination.index movedItem
        if result.source.droppableId = "available" then
          { availableStaff := sourceClone, assignedStaff := destClone }
        else
          { assignedStaff := sourceClone, availableStaff := destClone }

/-! ### WorkforcePage.tsx assignment ledger -/

/-- JS record read `assignments[processId] || []` on an association list. -/
def recordGetD (m : List (String × List Employee)) (k : String) : List Employee :=
  match m with
  | [] => []
  | (k0, v0) :: rest => if k0 = k then v0 else recordGetD rest k

/-- JS record write `{...assignments, [k]: v}` / `assignments[k] = v`:
replace the value at the first binding of `k`, or append a new binding. -/
def recordSet (m : List (String × List Employee)) (k : String) (v : List Employee) :
    List (String × List Employee) :=
  match m with
  | [] => [(k, v)]
  | (k0, v0) :: rest => if k0 = k then (k0, v) :: rest else (k0, v0) :: recordSet rest k v

/-- Ledger state of WorkforcePage: the employee pool plus the per-process
assignment record. -/
structure WPState where
  availableStaff : List Employee
  assignments : List (String × List Employee)
  deriving DecidableEq

/-- `onDragEnd` of WorkforcePage.tsx.  `droppableId.replace('process-', '')`
removes the first occurrence of the pattern in JS; under the `startsWith`
guard that is exactly dropping the 8-character tag, hence `strDrop _ 8`.
The UI side effects (toast, advisory suggestion fetch) do not touch the
ledger and are omitted here. -/
def WPState.onDragEnd (st : WPState) (result : DropResult) : WPState :=
  match result.destination with
  | none => st
  | some destination =>
    if result.source.droppableId = destination.droppableId then st
    else if result.source.droppableId = "employee-pool" then
      match st.availableStaff[result.source.index]? with
      | none => st
      | some draggedEmployee =>
        if strStartsWith destination.droppableId "process-" then
          let processId := strDrop destination.droppableId 8
          let newPool := st.availableStaff.eraseIdx result.source.index
          let newAssignments := recordSet st.assignments processId
            (recordGetD st.assignments processId ++ [draggedEmployee])
          { availableStaff := newPool, assignments := newAssignments }
        else st
    else if strStartsWith result.source.droppableId "process-" then
      let processId := strDrop result.source.droppableId 8
      let processStaff := recordGetD st.assignments processId
      match processStaff[result.source.index]? with
      | none => st
      | some draggedEmployee =>
        if destination.droppableId = "employee-pool" then
          { availableStaff := st.availableStaff ++ [draggedEmployee],
            assignments := recordSet st.assignments processId
              (processStaff.eraseIdx result.source.index) }
        else st
    else st

/-- `removeFromProcess` of WorkforcePage.tsx (the explicit return-to-pool
button on an assigned chip). -/
def WPState.removeFromProcess (st : WPState) (processId : String) (empIndex : Nat) : WPState :=
  let processStaff := recordGetD st.assignments processId
  match processStaff[empIndex]? with
  | none => st
  | some emp =>
    { assignments := recordSet st.assignments processId (processStaff.eraseIdx empIndex),
      availableStaff := st.availableStaff ++ [emp] }

/-- User actions that mutate the WorkforcePage ledger. -/
inductive LedgerEvent where
  | drag (result : DropResult)
  | remove (processId : String) (empIndex : Nat)
  deriving DecidableEq

def WPState.applyEvent (st : WPState) : LedgerEvent → WPState
  | .drag result => st.onDragEnd result
  | .remove processId empIndex => st.removeFromProcess processId empIndex

def WPState.runEvents (st : WPState) (evs : List LedgerEvent) : WPState :=
  evs.foldl WPState.applyEvent st

/-- Initial ledger after `fetchTopology`: the whole seed staff in the pool and
one empty sequence per fetched process node. -/
def initWPState (procIds : List String) : WPState :=
  { availableStaff := initialEmployees,
    assignments := procIds.map (fun pid => (pid, [])) }

/-- All location sequences of the ledger: the pool followed by every process
sequence, in record order. -/
def WPState.locSeqs (st : WPState) : List (List Employee) :=
  st.availableStaff :: st.assignments.map Prod.snd

/-- Multiset of workers held in the process sequences of an assignment record. -/
def assignedWorkers (m : List (String × List Employee)) : Multiset Employee :=
  ((m.map Prod.snd).flatten : List Employee)

/-- Multiset of workers held anywhere in the ledger. -/
def WPState.workers (st : WPState) : Multiset Employee :=
  (st.availableStaff : Multiset Employee) + assignedWorkers st.assignments

/-! ### Conservation lemmas for the ledger -/

theorem multiset_eraseIdx_get (l : List α) (i : Nat) (a : α) (h : l[i]? = some a) :
    ((l.eraseIdx i : List α) : Multiset α) + {a} = (l : Multiset α) := by
  induction l generalizing i with
  | nil => simp at h
  | cons b t ih =>
    cases i with
    | zero =>
      simp only [List.getElem?_cons_zero] at h
      injection h with h
      subst h
      rw [List.eraseIdx, add_comm, Multiset.singleton_add, Multiset.cons_coe]
    | succ i =>
      simp only [List.getElem?_cons_succ] at h
      rw [List.eraseIdx, ← Multiset.cons_coe, ← Multiset.cons_coe, Multiset.cons_add, ih i h]

theorem multiset_spliceInsert (l : List α) (i : Nat) (a : α) :
    ((spliceInsert l i a : List α) : Multiset α) = a ::ₘ (l : Multiset α) := by
  rw [Multiset.cons_coe, Multiset.coe_eq_coe, spliceInsert]
  have h := @List.perm_middle _ a (l.take i) (l.drop i)
  rw [List.take_append_drop] at h
  exact h

theorem recordGetD_cons_self (k : String) (v0 : List Employee)
    (rest : List (String × List Employee)) : recordGetD ((k, v0) :: rest) k = v0 := by
  simp [recordGetD]

theorem recordGetD_cons_ne {k0 k : String} (hk : ¬k0 = k) (v0 : List Employee)
    (rest : List (String × List Employee)) :
    recordGetD ((k0, v0) :: rest) k = recordGetD rest k := by
  simp [recordGetD, hk]

theorem recordSet_cons_self (k : String) (v0 v : List Employee)
    (rest : List (String × List Employee)) :
    recordSet ((k, v0) :: rest) k v = (k, v) :: rest := by
  simp [recordSet]

theorem recordSet_cons_ne {k0 k : String} (hk : ¬k0 = k) (v0 v : List Employee)
    (rest : List (String × List Employee)) :
    recordSet ((k0, v0) :: rest) k v = (k0, v0) :: recordSet rest k v := by
  simp [recordSet, hk]

theorem assignedWorkers_nil : assignedWorkers ([] : List (String × List Employee)) = 0 := rfl

theorem assignedWorkers_cons (k : String) (v : List Employee) (rest : List (String × List Employee)) :
    assignedWorkers ((k, v) :: rest) = (v : Multiset Employee) + assignedWorkers rest := by
  show ((v ++ (rest.map Prod.snd).flatten : List Employee) : Multiset Employee) = _
  rw [← Multiset.coe_add]
  rfl

theorem recordSet_push_workers (m : List (String × List Employee)) (k : String) (d : Employee) :
    assignedWorkers (recordSet m k (recordGetD m k ++ [d])) = assignedWorkers m + {d} := by
  induction m with
  | nil =>
    show assignedWorkers [(k, [d])] = 0 + {d}
    rw [assignedWorkers_cons, assignedWorkers_nil]
    simp
  | cons p rest ih =>
    obtain ⟨k0, v0⟩ := p
    by_cases hk : k0 = k
    · subst hk
      rw [recordGetD_cons_self, recordSet_cons_self, assignedWorkers_cons, assignedWorkers_cons,
        ← Multiset.coe_add]
      simp only [Multiset.coe_singleton]
      abel
    · rw [recordGetD_cons_ne hk, recordSet_cons_ne hk, assignedWorkers_cons,
        assignedWorkers_cons, ih]
      abel

theorem recordSet_erase_workers (m : List (String × List Employee)) (k : String) (i : Nat)
    (e : Employee) (h : (recordGetD m k)[i]? = some e) :
    assignedWorkers (recordSet m k ((recordGetD m k).eraseIdx i)) + {e} = assignedWorkers m := by
  induction m with
  | nil => simp [recordGetD] at h
  | cons p rest ih =>
    obtain ⟨k0, v0⟩ := p
    by_cases hk : k0 = k
    · subst hk
      rw [recordGetD_cons_self] at h
      rw [recordGetD_cons_self, recordSet_cons_self, assignedWorkers_cons, assignedWorkers_cons,
        add_right_comm, multiset_eraseIdx_get v0 i e h]
    · rw [recordGetD_cons_ne hk] at h
      rw [recordGetD_cons_ne hk, recordSet_cons_ne hk, assignedWorkers_cons,
        assignedWorkers_cons, add_assoc, ih h]

theorem recordGetD_recordSet_self (m : List (String × List Employee)) (k : String)
    (v : List Employee) : recordGetD (recordSet m k v) k = v := by
  induction m with
  | nil => simp [recordSet, recordGetD]
  | cons p rest ih =>
    obtain ⟨k0, v0⟩ := p
    by_cases hk : k0 = k
    · subst hk
      simp [recordSet, recordGetD]
    · simp [recordSet, recordGetD, hk, ih]

/-- Every drag outcome conserves the multiset of workers in the ledger. -/
theorem workers_onDragEnd (st : WPState) (result : DropResult) :
    (st.onDragEnd result).workers = st.workers := by
  simp only [WPState.onDragEnd]
  split
  · rfl
  split
  · rfl
  split
  · -- dragging from the pool
    split
    · rfl
    next draggedEmployee hget =>
      split
      · -- destination is a process droppable
        simp only [WPState.workers, recordSet_push_workers]
        rw [← multiset_eraseIdx_get st.availableStaff result.source.index draggedEmployee hget]
        abel
      · rfl
  split
  · -- dragging from a process
    split
    · rfl
    next draggedEmployee hget =>
      split
      · -- destination is the pool
        simp only [WPState.workers]
        rw [← recordSet_erase_workers st.assignments (strDrop result.source.droppableId 8)
          result.source.index draggedEmployee hget, ← Multiset.coe_add]
        simp only [Multiset.coe_singleton]
        abel
      · rfl
  · rfl

/-- The explicit return-to-pool action conserves the multiset of workers. -/
theorem workers_removeFromProcess (st : WPState) (pid : String) (i : Nat) :
    (st.removeFromProcess pid i).workers = st.workers := by
  simp only [WPState.removeFromProcess]
  split
  · rfl
  next emp hget =>
    simp only [WPState.workers]
    rw [← recordSet_erase_workers st.assignments pid i emp hget, ← Multiset.coe_add]
    simp only [Multiset.coe_singleton]
    abel

theorem workers_applyEvent (st : WPState) (ev : LedgerEvent) :
    (st.applyEvent ev).workers = st.workers := by
  cases ev with
  | drag r => exact workers_onDragEnd st r
  | remove pid i => exact workers_removeFromProcess st pid i

theorem workers_runEvents (st : WPState) (evs : List LedgerEvent) :
    (st.runEvents evs).workers = st.workers := by
  induction evs generalizing st with
  | nil => rfl
  | cons e t ih =>
    show (WPState.runEvents (st.applyEvent e) t).workers = st.workers
    rw [ih, workers_applyEvent]

theorem workers_init (procIds : List String) :
    (initWPState procIds).workers = (initialEmployees : Multiset Employee) := by
  simp only [initWPState, WPState.workers]
  have h : assignedWorkers (procIds.map (fun pid => (pid, []))) = 0 := by
    induction procIds with
    | nil => rfl
    | cons p t ih => rw [List.map_cons, assignedWorkers_cons, ih]; simp
  rw [h, add_zero]

theorem workers_eq_locSeqs (st : WPState) :
    ((st.locSeqs.flatten : List Employee) : Multiset Employee) = st.workers := by
  rw [WPState.workers, WPState.locSeqs, assignedWorkers]
  show ((st.availableStaff ++ (st.assignments.map Prod.snd).flatten : List Employee) :
    Multiset Employee) = _
  rw [← Multiset.coe_add]

/-- C2: for every AssignmentLedger state reachable from the initial state (all
workers in the pool, every process location empty) by any sequence of
drag-transfer moves and return-to-pool removals, the multiset union of the pool
sequence and all process-location sequences equals the full worker set, and
every worker id occurs in exactly one location's sequence, exactly once (the
per-location occurrence counts of the id sum to 1 over all locations). -/
theorem ledger_partition_invariant_C2 (procIds : List String) (evs : List LedgerEvent) :
    ((initWPState procIds).runEvents evs).workers = (initialEmployees : Multiset Employee) ∧
    ∀ w ∈ initialEmployees,
      ((((initWPState procIds).runEvents evs).locSeqs).map
        (fun l => l.countP (fun e => e.id == w.id))).sum = 1 := by
  have hW : ((initWPState procIds).runEvents evs).workers = (initialEmployees : Multiset Employee) := by
    rw [workers_runEvents, workers_init]
  refine ⟨hW, ?_⟩
  intro w hw
  have hperm : List.Perm (((initWPState procIds).runEvents evs).locSeqs.flatten) initialEmployees :=
    Multiset.coe_eq_coe.mp ((workers_eq_locSeqs _).trans hW)
  rw [← List.countP_flatten, hperm.countP_eq]
  simp only [initialEmployees, List.mem_cons, List.not_mem_nil, or_false] at hw
  rcases hw with rfl | rfl | rfl | rfl | rfl | rfl <;> decide

/-! ### Drag-transfer protocol: cross-location and same-location moves -/

theorem length_spliceInsert (l : List α) (i : Nat) (a : α) :
    (spliceInsert l i a).length = l.length + 1 := by
  simp only [spliceInsert, List.length_append, List.length_take, List.length_cons,
    List.length_drop]
  omega

theorem onDragEnd_avail_to_assigned (st : WAState) (i j : Nat) (x : Employee)
    (h : st.availableStaff[i]? = some x) :
    st.onDragEnd ⟨⟨"available", i⟩, some ⟨"assigned", j⟩⟩ =
      ⟨st.availableStaff.eraseIdx i, spliceInsert st.assignedStaff j x⟩ := by
  simp [WAState.onDragEnd, h]

theorem onDragEnd_assigned_to_avail (st : WAState) (i j : Nat) (x : Employee)
    (h : st.assignedStaff[i]? = some x) :
    st.onDragEnd ⟨⟨"assigned", i⟩, some ⟨"available", j⟩⟩ =
      ⟨spliceInsert st.availableStaff j x, st.assignedStaff.eraseIdx i⟩ := by
  simp [WAState.onDragEnd, h]

theorem onDragEnd_pool_to_process (st : WPState) (i j : Nat) (x : Employee) (d : String)
    (hget : st.availableStaff[i]? = some x) (hpre : strStartsWith d "process-" = true) :
    st.onDragEnd ⟨⟨"employee-pool", i⟩, some ⟨d, j⟩⟩ =
      { availableStaff := st.availableStaff.eraseIdx i,
        assignments := recordSet st.assignments (strDrop d 8)
          (recordGetD st.assignments (strDrop d 8) ++ [x]) } := by
  have hne : ¬("employee-pool" = d) := by
    intro h
    rw [← h] at hpre
    exact absurd hpre (by decide)
  simp [WPState.onDragEnd, hne, hget, hpre]

theorem onDragEnd_process_to_pool (st : WPState) (i j : Nat) (x : Employee) (d : String)
    (hpre : strStartsWith d "process-" = true)
    (hget : (recordGetD st.assignments (strDrop d 8))[i]? = some x) :
    st.onDragEnd ⟨⟨d, i⟩, some ⟨"employee-pool", j⟩⟩ =
      { availableStaff := st.availableStaff ++ [x],
        assignments := recordSet st.assignments (strDrop d 8)
          ((recordGetD st.assignments (strDrop d 8)).eraseIdx i) } := by
  have hne : ¬(d = "employee-pool") := by
    intro h
    rw [h] at hpre
    exact absurd hpre (by decide)
  simp [WPState.onDragEnd, hne, hget, hpre]

/-- C4 (amended): in WorkforceAllocation a cross-location move with a valid
source removes the worker from the source list and inserts it into the
destination at position destIndex, as one atomic update conserving the
worker multiset.  In WorkforcePage only the moves between the pool and a
process location act: pool-to-process removes the worker from the pool and
appends it at the END of the process sequence (the gesture's destIndex is
ignored), process-to-pool appends it at the end of the pool; a drag between
two different process locations is silently ignored, leaving the whole
ledger unchanged.  In every case the exactly-one-location invariant is
preserved (atomic move or no-op). -/
theorem move_crossLocation_C4 :
    (∀ (st : WAState) (i j : Nat) (x : Employee), st.availableStaff[i]? = some x →
        st.onDragEnd ⟨⟨"available", i⟩, some ⟨"assigned", j⟩⟩ =
          ⟨st.availableStaff.eraseIdx i, spliceInsert st.assignedStaff j x⟩) ∧
    (∀ (st : WAState) (i j : Nat) (x : Employee), st.assignedStaff[i]? = some x →
        st.onDragEnd ⟨⟨"assigned", i⟩, some ⟨"available", j⟩⟩ =
          ⟨spliceInsert st.availableStaff j x, st.assignedStaff.eraseIdx i⟩) ∧
    (∀ (st : WAState) (i j : Nat) (x : Employee), st.availableStaff[i]? = some x →
        ((st.onDragEnd ⟨⟨"available", i⟩, some ⟨"assigned", j⟩⟩).availableStaff : Multiset Employee)
          + ((st.onDragEnd ⟨⟨"available", i⟩, some ⟨"assigned", j⟩⟩).assignedStaff : Multiset Employee)
          = (st.availableStaff : Multiset Employee) + (st.assignedStaff : Multiset Employee)) ∧
    (∀ (st : WPState) (i j : Nat) (x : Employee) (d : String),
        st.availableStaff[i]? = some x → strStartsWith d "process-" = true →
        (st.onDragEnd ⟨⟨"employee-pool", i⟩, some ⟨d, j⟩⟩).workers = st.workers ∧
        recordGetD (st.onDragEnd ⟨⟨"employee-pool", i⟩, some ⟨d, j⟩⟩).assignments (strDrop d 8) =
          recordGetD st.assignments (strDrop d 8) ++ [x] ∧
        (st.onDragEnd ⟨⟨"employee-pool", i⟩, some ⟨d, j⟩⟩).availableStaff =
          st.availableStaff.eraseIdx i) ∧
    (∀ (st : WPState) (i j : Nat) (x : Employee) (d : String),
        strStartsWith d "process-" = true →
        (recordGetD st.assignments (strDrop d 8))[i]? = some x →
        (st.onDragEnd ⟨⟨d, i⟩, some ⟨"employee-pool", j⟩⟩).workers = st.workers ∧
        (st.onDragEnd ⟨⟨d, i⟩, some ⟨"employee-pool", j⟩⟩).availableStaff =
          st.availableStaff ++ [x] ∧
        recordGetD (st.onDragEnd ⟨⟨d, i⟩, some ⟨"employee-pool", j⟩⟩).assignments (strDrop d 8) =
          (recordGetD st.assignments (strDrop d 8)).eraseIdx i) ∧
    (∀ (st : WPState) (i j : Nat) (d d' : String),
        strStartsWith d "process-" = true → strStartsWith d' "process-" = true →
        ¬(d = d') →
        st.onDragEnd ⟨⟨d, i⟩, some ⟨d', j⟩⟩ = st) := by
  refine ⟨onDragEnd_avail_to_assigned, onDragEnd_assigned_to_avail, ?_, ?_, ?_, ?_⟩
  · intro st i j x h
    rw [onDragEnd_avail_to_assigned st i j x h]
    show ((st.availableStaff.eraseIdx i : List Employee) : Multiset Employee)
      + ((spliceInsert st.assignedStaff j x : List Employee) : Multiset Employee) = _
    rw [multiset_spliceInsert, ← multiset_eraseIdx_get st.availableStaff i x h,
      ← Multiset.singleton_add]
    abel
  · intro st i j x d hget hpre
    rw [onDragEnd_pool_to_process st i j x d hget hpre]
    refine ⟨?_, recordGetD_recordSet_self _ _ _, rfl⟩
    show ((st.availableStaff.eraseIdx i : List Employee) : Multiset Employee)
      + assignedWorkers (recordSet st.assignments (strDrop d 8)
          (recordGetD st.assignments (strDrop d 8) ++ [x])) = st.workers
    rw [recordSet_push_workers, WPState.workers,
      ← multiset_eraseIdx_get st.availableStaff i x hget]
    abel
  · intro st i j x d hpre hget
    rw [onDragEnd_process_to_pool st i j x d hpre hget]
    refine ⟨?_, rfl, recordGetD_recordSet_self _ _ _⟩
    show ((st.availableStaff ++ [x] : List Employee) : Multiset Employee)
      + assignedWorkers (recordSet st.assignments (strDrop d 8)
          ((recordGetD st.assignments (strDrop d 8)).eraseIdx i)) = st.workers
    rw [← Multiset.coe_add, WPState.workers,
      ← recordSet_erase_workers st.assignments (strDrop d 8) i x hget]
    simp only [Multiset.coe_singleton]
    abel
  · intro st i j d d' hd hd' hne
    have h2 : ¬(d = "employee-pool") := by
      intro h
      rw [h] at hd
      exact absurd hd (by decide)
    have h3 : ¬(d' = "employee-pool") := by
      intro h
      rw [h] at hd'
      exact absurd hd' (by decide)
    simp only [WPState.onDragEnd]
    rw [if_neg hne, if_neg h2, if_pos hd]
    cases (recordGetD st.assignments (strDrop d 8))[i]? with
    | none => rfl
    | some de => simp only [if_neg h3]

/-- C4 witness: moving the first available worker into the assigned list at
destIndex 0 in WorkforceAllocation removes it from the source and inserts it
at position 0 of the destination. -/
theorem move_crossLocation_C4_witness :
    (WAState.mk [emp1, emp2] [emp3]).onDragEnd ⟨⟨"available", 0⟩, some ⟨"assigned", 0⟩⟩ =
      ⟨[emp1, emp2].eraseIdx 0, spliceInsert [emp3] 0 emp1⟩ :=
  move_crossLocation_C4.1 (WAState.mk [emp1, emp2] [emp3]) 0 0 emp1 rfl

/-- C4 counterexample: in WorkforcePage, dragging a pool worker onto a process
that already holds two workers with gesture destIndex 0 appends the worker at
the end of the process sequence, not at position 0 as the claim states. -/
theorem move_crossLocation_cex_C4 :
    recordGetD ((WPState.mk [emp6] [("p1", [emp1, emp2])]).onDragEnd
        ⟨⟨"employee-pool", 0⟩, some ⟨"process-p1", 0⟩⟩).assignments "p1"
      = [emp1, emp2, emp6] ∧
    spliceInsert [emp1, emp2] 0 emp6 ≠ [emp1, emp2, emp6] := by
  exact ⟨by decide, by decide⟩

/-- C5 (amended): a same-location move with a valid source index is, in
WorkforceAllocation, a pure reorder of that one list (remove at sourceIndex,
re-insert at destIndex) that never changes the list's length and leaves the
other list untouched; in WorkforcePage a same-location gesture is ignored
entirely (the whole ledger is unchanged), so every location's length is
likewise unchanged. -/
theorem move_sameLocation_C5 :
    (∀ (st : WAState) (d : String) (i j : Nat) (x : Employee), (st.list d)[i]? = some x →
        (st.onDragEnd ⟨⟨d, i⟩, some ⟨d, j⟩⟩).list d =
          spliceInsert ((st.list d).eraseIdx i) j x ∧
        ((st.onDragEnd ⟨⟨d, i⟩, some ⟨d, j⟩⟩).list d).length = (st.list d).length) ∧
    (∀ (st : WAState) (i j : Nat) (x : Employee), st.availableStaff[i]? = some x →
        (st.onDragEnd ⟨⟨"available", i⟩, some ⟨"available", j⟩⟩).assignedStaff =
          st.assignedStaff) ∧
    (∀ (st : WAState) (d : String) (i j : Nat) (x : Employee), ¬(d = "available") →
        (st.list d)[i]? = some x →
        (st.onDragEnd ⟨⟨d, i⟩, some ⟨d, j⟩⟩).availableStaff = st.availableStaff) ∧
    (∀ (st : WPState) (d : String) (i j : Nat), st.onDragEnd ⟨⟨d, i⟩, some ⟨d, j⟩⟩ = st) := by
  have hlen : ∀ (l : List Employee) (i j : Nat) (x : Employee), l[i]? = some x →
      (spliceInsert (l.eraseIdx i) j x).length = l.length := by
    intro l i j x h
    obtain ⟨hlt, -⟩ := List.getElem?_eq_some.mp h
    rw [length_spliceInsert, List.length_eraseIdx, if_pos hlt]
    omega
  refine ⟨?_, ?_, ?_, ?_⟩
  · intro st d i j x h
    by_cases hd : d = "available"
    · subst hd
      have h' : st.availableStaff[i]? = some x := h
      refine ⟨by simp [WAState.onDragEnd, WAState.list, h'], ?_⟩
      have hl : (st.onDragEnd ⟨⟨"available", i⟩, some ⟨"available", j⟩⟩).list "available"
          = spliceInsert ((st.list "available").eraseIdx i) j x := by
        simp [WAState.onDragEnd, WAState.list, h']
      rw [hl]
      exact hlen _ i j x h'
    · have h' : st.assignedStaff[i]? = some x := by
        simpa [WAState.list, hd] using h
      refine ⟨by simp [WAState.onDragEnd, WAState.list, hd, h'], ?_⟩
      have hl : (st.onDragEnd ⟨⟨d, i⟩, some ⟨d, j⟩⟩).list d
          = spliceInsert ((st.list d).eraseIdx i) j x := by
        simp [WAState.onDragEnd, WAState.list, hd, h']
      rw [hl]
      simp only [WAState.list, if_neg hd]
      exact hlen _ i j x h'
  · intro st i j x h
    simp [WAState.onDragEnd, h]
  · intro st d i j x hd h
    have h' : st.assignedStaff[i]? = some x := by
      simpa [WAState.list, hd] using h
    simp [WAState.onDragEnd, hd, h']
  · intro st d i j
    simp [WPState.onDragEnd]

/-- C5 witness: reordering the available list of WorkforceAllocation from
index 0 to index 2 re-inserts the element at position 2 and keeps the length. -/
theorem move_sameLocation_C5_witness :
    ((WAState.mk [emp1, emp2, emp3] []).onDragEnd
        ⟨⟨"available", 0⟩, some ⟨"available", 2⟩⟩).list "available" = [emp2, emp3, emp1] ∧
    (((WAState.mk [emp1, emp2, emp3] []).onDragEnd
        ⟨⟨"available", 0⟩, some ⟨"available", 2⟩⟩).list "available").length = 3 := by
  have h := move_sameLocation_C5.1 (WAState.mk [emp1, emp2, emp3] []) "available" 0 2 emp1
    (by decide)
  exact ⟨by rw [h.1]; decide, by rw [h.2]; decide⟩

/-- C5 counterexample: in WorkforcePage a same-location drag (pool index 0 to
pool index 2) leaves the sequence completely unchanged; it is not the removal
and re-insertion at destIndex the claim states, which would produce a
different list. -/
theorem move_sameLocation_cex_C5 :
    ((initWPState ["p1"]).onDragEnd
        ⟨⟨"employee-pool", 0⟩, some ⟨"employee-pool", 2⟩⟩).availableStaff = initialEmployees ∧
    spliceInsert (initialEmployees.eraseIdx 0) 2 emp1 ≠ initialEmployees := by
  exact ⟨by decide, by decide⟩

/-! ### SimulationOrchestrator (runFullSimulation of WorkforcePage.tsx) -/

/-- Per-location simulation metrics (interface Simulation). -/
structure Simulation where
  cycle_time_before : ℚ
  cycle_time_after : ℚ
  cycle_reduction_pct : ℚ
  throughput_gain_pct : ℚ
  opex_increase : ℚ
  is_bottleneck : Bool
  impact_score : ℚ
  deriving DecidableEq

/-- Response of the POST /api/suggest remote call (interface Suggestion). -/
structure Suggestion where
  simulation : Simulation
  ai_suggestion : String
  deriving DecidableEq

/-- Payload of a process node fetched from /api/topology. -/
structure ProcessNodeData where
  label : String
  isBottleneck : Bool
  avgDuration : ℚ
  deriving DecidableEq

structure ProcessNode where
  id : String
  data : ProcessNodeData
  deriving DecidableEq

/-- Severity levels accepted by the showToast notify sink. -/
inductive ToastLevel where
  | success
  | error
  | info
  deriving DecidableEq

/-- One emitted notification: showToast(message, level, durationMs?). -/
structure Toast where
  message : String
  level : ToastLevel
  durationMs : Option Nat
  deriving DecidableEq

/-- Orchestrator phases (simPhase). -/
inductive SimPhase where
  | idle
  | simulating
  | analyzing
  | complete
  deriving DecidableEq

structure SimProgress where
  current : Nat
  total : Nat
  label : String
  deriving DecidableEq

/-- One element of simResults. -/
structure SimEntry where
  processName : String
  simulation : Simulation
  suggestion : String
  deriving DecidableEq

/-- Body of one POST /api/suggest request issued by the pipeline. -/
structure RemoteCall where
  process_id : String
  process_label : String
  assigned : List Employee
  deriving DecidableEq

/-- Orchestrator state plus the traces of emitted toasts and remote calls. -/
structure SimModalState where
  showSimModal : Bool
  simPhase : SimPhase
  simProgress : SimProgress
  simResults : List SimEntry
  simAggregate : Option Simulation
  toasts : List Toast
  calls : List RemoteCall
  deriving DecidableEq

/-- Aggregation computed in runFullSimulation: reduce-sum each numeric field
(mean fields divided by the count), sum opex_increase, OR the bottleneck
flags via `.some(...)`. -/
def computeAgg (allResults : List SimEntry) : Simulation :=
  { cycle_time_before :=
      (allResults.foldl (fun s r => s + r.simulation.cycle_time_before) 0) / allResults.length,
    cycle_time_after :=
      (allResults.foldl (fun s r => s + r.simulation.cycle_time_after) 0) / allResults.length,
    cycle_reduction_pct :=
      (allResults.foldl (fun s r => s + r.simulation.cycle_reduction_pct) 0) / allResults.length,
    throughput_gain_pct :=
      (allResults.foldl (fun s r => s + r.simulation.throughput_gain_pct) 0) / allResults.length,
    opex_increase := allResults.foldl (fun s r => s + r.simulation.opex_increase) 0,
    is_bottleneck := allResults.any (fun r => r.simulation.is_bottleneck),
    impact_score :=
      (allResults.foldl (fun s r => s + r.simulation.impact_score) 0) / allResults.length }

/-- `processes.find(p => p.id === processId)?.data.label || 'Unknown'`; the JS
`||` also replaces an empty-string label by 'Unknown'. -/
def labelOf (processes : List ProcessNode) (processId : String) : String :=
  match processes.find? (fun p => p.id == processId) with
  | some proc => if proc.data.label = "" then "Unknown" else proc.data.label
  | none => "Unknown"

/-- Oracle for the per-location remote evaluation call; `Except.error` models
a rejected fetch, caught by the surrounding try/catch. -/
abbrev FetchOracle : Type :=
  String → String → List Employee → Except String Suggestion

/-- Sequential simulation loop of runFullSimulation (the `for` over
assignedProcesses): one remote call per pending location, progress update
before each call, results appended after each success, abort-to-idle in the
catch on the first failure, then the Analyzing dwell and the aggregate.  The
catch hides the modal and resets the phase but does NOT clear simResults. -/
def simLoop (fetch : FetchOracle) (processes : List ProcessNode) (total : Nat) :
    List (String × List Employee) → Nat → List SimEntry → SimModalState → SimModalState
  | [], _, allResults, st =>
    { st with simPhase := .complete, simAggregate := some (computeAgg allResults) }
  | (processId, staff) :: rest, i, allResults, st =>
    let label := labelOf processes processId
    let st1 := { st with
      simProgress := { current := i + 1, total := total, label := label },
      calls := st.calls ++
        [({ process_id := processId, process_label := label, assigned := staff } : RemoteCall)] }
    match fetch processId label staff with
    | .error _ =>
      { st1 with
        toasts := st1.toasts ++
          [({ message := "Simulation failed", level := .error, durationMs := none } : Toast)],
        showSimModal := false,
        simPhase := .idle }
    | .ok res =>
      let allResults1 := allResults ++
        [{ processName := label, simulation := res.simulation, suggestion := res.ai_suggestion }]
      simLoop fetch processes total rest (i + 1) allResults1 { st1 with simResults := allResults1 }

/-- runFullSimulation of WorkforcePage.tsx: filter the non-empty locations,
reject an empty selection at the guard with an error toast, otherwise open
the modal, reset results and aggregate, and run the sequential loop. -/
def runFullSimulation (fetch : FetchOracle) (processes : List ProcessNode)
    (assignments : List (String × List Employee)) (st : SimModalState) : SimModalState :=
  let assignedProcesses := assignments.filter (fun p => p.2.length > 0)
  if assignedProcesses.length = 0 then
    { st with toasts := st.toasts ++
        [{ message := "No employees assigned yet", level := .error, durationMs := some 3000 }] }
  else
    simLoop fetch processes assignedProcesses.length assignedProcesses 0 []
      { st with showSimModal := true, simPhase := .simulating,
                simResults := [], simAggregate := none }

/-- Entry recorded in simResults for one location whose fetch succeeds (the
error branch is a placeholder, only reached outside the all-success
hypothesis under which this definition is used). -/
def fetchedEntry (fetch : FetchOracle) (processes : List ProcessNode)
    (p : String × List Employee) : SimEntry :=
  let label := labelOf processes p.1
  match fetch p.1 label p.2 with
  | .ok res => { processName := label, simulation := res.simulation, suggestion := res.ai_suggestion }
  | .error _ => { processName := label, simulation := ⟨0, 0, 0, 0, 0, false, 0⟩, suggestion := "" }

/-- Remote call issued for one pending location. -/
def callOf (processes : List ProcessNode) (p : String × List Employee) : RemoteCall :=
  { process_id := p.1, process_label := labelOf processes p.1, assigned := p.2 }

/-- Initial orchestrator state (the useState initial values). -/
def initSimState : SimModalState :=
  { showSimModal := false, simPhase := .idle, simProgress := ⟨0, 0, ""⟩,
    simResults := [], simAggregate := none, toasts := [], calls := [] }

theorem foldl_add_eq_sum_map (f : SimEntry → ℚ) (l : List SimEntry) (init : ℚ) :
    l.foldl (fun s r => s + f r) init = init + (l.map f).sum := by
  induction l generalizing init with
  | nil => simp
  | cons a t ih =>
    rw [List.foldl_cons, ih, List.map_cons, List.sum_cons]
    ring

/-- Field-level description of computeAgg: five arithmetic means, a sum, a
disjunction. -/
theorem computeAgg_spec (l : List SimEntry) :
    (computeAgg l).cycle_time_before
        = (l.map (fun r => r.simulation.cycle_time_before)).sum / (l.length : ℚ) ∧
    (computeAgg l).cycle_time_after
        = (l.map (fun r => r.simulation.cycle_time_after)).sum / (l.length : ℚ) ∧
    (computeAgg l).cycle_reduction_pct
        = (l.map (fun r => r.simulation.cycle_reduction_pct)).sum / (l.length : ℚ) ∧
    (computeAgg l).throughput_gain_pct
        = (l.map (fun r => r.simulation.throughput_gain_pct)).sum / (l.length : ℚ) ∧
    (computeAgg l).impact_score
        = (l.map (fun r => r.simulation.impact_score)).sum / (l.length : ℚ) ∧
    (computeAgg l).opex_increase = (l.map (fun r => r.simulation.opex_increase)).sum ∧
    ((computeAgg l).is_bottleneck = true ↔ ∃ r ∈ l, r.simulation.is_bottleneck = true) := by
  refine ⟨?_, ?_, ?_, ?_, ?_, ?_, ?_⟩ <;>
    simp [computeAgg, foldl_add_eq_sum_map, List.any_eq_true]

/-- A simLoop run in which every pending fetch succeeds reaches Complete,
collects one result and one remote call per pending location in order, and
stores the aggregate of all results. -/
theorem simLoop_ok (fetch : FetchOracle) (processes : List ProcessNode) (total : Nat)
    (pending : List (String × List Employee)) :
    ∀ (i : Nat) (allResults : List SimEntry) (st : SimModalState),
      (∀ p ∈ pending, (fetch p.1 (labelOf processes p.1) p.2).isOk = true) →
      st.simResults = allResults →
      (simLoop fetch processes total pending i allResults st).simPhase = .complete ∧
      (simLoop fetch processes total pending i allResults st).showSimModal = st.showSimModal ∧
      (simLoop fetch processes total pending i allResults st).toasts = st.toasts ∧
      (simLoop fetch processes total pending i allResults st).simResults
        = allResults ++ pending.map (fetchedEntry fetch processes) ∧
      (simLoop fetch processes total pending i allResults st).simAggregate
        = some (computeAgg (allResults ++ pending.map (fetchedEntry fetch processes))) ∧
      (simLoop fetch processes total pending i allResults st).calls
        = st.calls ++ pending.map (callOf processes) ∧
      (pending = [] →
        (simLoop fetch processes total pending i allResults st).simProgress = st.simProgress) ∧
      (pending ≠ [] →
        (simLoop fetch processes total pending i allResults st).simProgress.current
            = i + pending.length ∧
        (simLoop fetch processes total pending i allResults st).simProgress.total = total) := by
  induction pending with
  | nil =>
    intro i allResults st hok hsync
    simp [simLoop, hsync]
  | cons p rest ih =>
    intro i allResults st hok hsync
    obtain ⟨processId, staff⟩ := p
    have hokhd : (fetch processId (labelOf processes processId) staff).isOk = true :=
      hok _ (List.mem_cons_self _ _)
    cases hfetch : fetch processId (labelOf processes processId) staff with
    | error e =>
      rw [hfetch] at hokhd
      simp [Except.isOk, Except.toBool] at hokhd
    | ok res =>
      have hrest : ∀ q ∈ rest, (fetch q.1 (labelOf processes q.1) q.2).isOk = true :=
        fun q hq => hok q (List.mem_cons_of_mem _ hq)
      have hfe : fetchedEntry fetch processes (processId, staff)
          = { processName := labelOf processes processId, simulation := res.simulation,
              suggestion := res.ai_suggestion } := by
        simp [fetchedEntry, hfetch]
      have hstep : simLoop fetch processes total ((processId, staff) :: rest) i allResults st
          = simLoop fetch processes total rest (i + 1)
              (allResults ++ [fetchedEntry fetch processes (processId, staff)])
              { st with
                simProgress := { current := i + 1, total := total,
                                 label := labelOf processes processId },
                calls := st.calls ++ [callOf processes (processId, staff)],
                simResults := allResults ++ [fetchedEntry fetch processes (processId, staff)] } := by
        simp only [simLoop, hfetch, hfe, callOf]
      rw [hstep]
      obtain ⟨h1, h2, h3, h4, h5, h6, h7, h8⟩ := ih (i + 1)
        (allResults ++ [fetchedEntry fetch processes (processId, staff)])
        { st with
          simProgress := { current := i + 1, total := total,
                           label := labelOf processes processId },
          calls := st.calls ++ [callOf processes (processId, staff)],
          simResults := allResults ++ [fetchedEntry fetch processes (processId, staff)] }
        hrest rfl
      refine ⟨h1, h2, h3, ?_, ?_, ?_, ?_, ?_⟩
      · rw [h4, List.map_cons, List.append_assoc, List.singleton_append]
      · rw [h5, List.map_cons, List.append_assoc, List.singleton_append]
      · rw [h6, List.map_cons, List.append_assoc, List.singleton_append]
      · intro hcontra
        exact absurd hcontra (List.cons_ne_nil _ _)
      · intro _
        by_cases hrestnil : rest = []
        · subst hrestnil
          constructor
          · rw [h7 rfl]
            simp
          · rw [h7 rfl]
        · obtain ⟨hc, ht⟩ := h8 hrestnil
          constructor
          · rw [hc, List.length_cons]
            omega
          · exact ht

/-- A simLoop run whose pending list is a succeeding prefix followed by a
failing call aborts in the catch: phase Idle, modal hidden, one error toast,
the results of the succeeding prefix still stored, the aggregate untouched. -/
theorem simLoop_err (fetch : FetchOracle) (processes : List ProcessNode) (total : Nat)
    (good : List (String × List Employee)) :
    ∀ (bad : String × List Employee) (rest : List (String × List Employee)) (i : Nat)
      (allResults : List SimEntry) (st : SimModalState),
      (∀ p ∈ good, (fetch p.1 (labelOf processes p.1) p.2).isOk = true) →
      (fetch bad.1 (labelOf processes bad.1) bad.2).isOk = false →
      st.simResults = allResults →
      (simLoop fetch processes total (good ++ bad :: rest) i allResults st).simPhase = .idle ∧
      (simLoop fetch processes total (good ++ bad :: rest) i allResults st).showSimModal = false ∧
      (simLoop fetch processes total (good ++ bad :: rest) i allResults st).simResults
        = allResults ++ good.map (fetchedEntry fetch processes) ∧
      (simLoop fetch processes total (good ++ bad :: rest) i allResults st).simAggregate
        = st.simAggregate ∧
      (simLoop fetch processes total (good ++ bad :: rest) i allResults st).toasts
        = st.toasts ++ [⟨"Simulation failed", .error, none⟩] := by
  induction good with
  | nil =>
    intro bad rest i allResults st hok hbad hsync
    obtain ⟨badId, badStaff⟩ := bad
    cases hfetch : fetch badId (labelOf processes badId) badStaff with
    | ok res =>
      rw [hfetch] at hbad
      simp [Except.isOk, Except.toBool] at hbad
    | error e =>
      have hstep : simLoop fetch processes total ([] ++ (badId, badStaff) :: rest) i allResults st
          = { st with
              simProgress := { current := i + 1, total := total,
                               label := labelOf processes badId },
              calls := st.calls ++ [callOf processes (badId, badStaff)],
              toasts := st.toasts ++ [⟨"Simulation failed", .error, none⟩],
              showSimModal := false,
              simPhase := .idle } := by
        simp only [List.nil_append, simLoop, hfetch, callOf]
      rw [hstep]
      exact ⟨rfl, rfl, by simp [hsync], rfl, rfl⟩
  | cons p goodRest ih =>
    intro bad rest i allResults st hok hbad hsync
    obtain ⟨processId, staff⟩ := p
    have hokhd : (fetch processId (labelOf processes processId) staff).isOk = true :=
      hok _ (List.mem_cons_self _ _)
    cases hfetch : fetch processId (labelOf processes processId) staff with
    | error e =>
      rw [hfetch] at hokhd
      simp [Except.isOk, Except.toBool] at hokhd
    | ok res =>
      have hgr : ∀ q ∈ goodRest, (fetch q.1 (labelOf processes q.1) q.2).isOk = true :=
        fun q hq => hok q (List.mem_cons_of_mem _ hq)
      have hfe : fetchedEntry fetch processes (processId, staff)
          = { processName := labelOf processes processId, simulation := res.simulation,
              suggestion := res.ai_suggestion } := by
        simp [fetchedEntry, hfetch]
      have hstep : simLoop fetch processes total
            (((processId, staff) :: goodRest) ++ bad :: rest) i allResults st
          = simLoop fetch processes total (goodRest ++ bad :: rest) (i + 1)
              (allResults ++ [fetchedEntry fetch processes (processId, staff)])
              { st with
                simProgress := { current := i + 1, total := total,
                                 label := labelOf processes processId },
                calls := st.calls ++ [callOf processes (processId, staff)],
                simResults := allResults ++ [fetchedEntry fetch processes (processId, staff)] } := by
        simp only [List.cons_append, simLoop, hfetch, hfe, callOf]
        rfl
      rw [hstep]
      obtain ⟨h1, h2, h3, h4, h5⟩ := ih bad rest (i + 1)
        (allResults ++ [fetchedEntry fetch processes (processId, staff)])
        { st with
          simProgress := { current := i + 1, total := total,
                           label := labelOf processes processId },
          calls := st.calls ++ [callOf processes (processId, staff)],
          simResults := allResults ++ [fetchedEntry fetch processes (processId, staff)] }
        hgr hbad rfl
      refine ⟨h1, h2, ?_, h4, h5⟩
      rw [h3, List.map_cons, List.append_assoc, List.singleton_append]

end BPM





namespace BPM

/-- Fetch oracle used for concrete runs: always succeeds, with
cycle_reduction_pct 10/20/30 depending on the location id and a bottleneck
flag only on P2. -/
def fetchW : FetchOracle := fun pid _ _ =>
  .ok ⟨⟨10, 5, (if pid = "P1" then 10 else if pid = "P2" then 20 else 30), 12,
        2, pid == "P2", 70⟩, "advice"⟩

/-- Fetch oracle whose call for location P2 is rejected. -/
def fetchCex : FetchOracle := fun pid _ _ =>
  if pid = "P2" then .error "network"
  else .ok ⟨⟨10, 5, 50, 12, 2, false, 70⟩, "advice"⟩

/-- C1: every orchestration run that reaches the Analyzing phase with N >= 1
collected per-location SimulationResults (all remote calls succeed and at
least one location is non-empty) computes an AggregateResult whose
cycleTimeBefore, cycleTimeAfter, cycleReductionPct, throughputGainPct and
impactScore are each the arithmetic mean of that field over the N results,
whose opexIncrease is the sum of the per-location opexIncrease values, and
whose isBottleneck is true iff at least one result has isBottleneck true. -/
theorem runFullSimulation_aggregate_C1 (fetch : FetchOracle) (processes : List ProcessNode)
    (assignments : List (String × List Employee)) (st : SimModalState)
    (hne : assignments.filter (fun p => p.2.length > 0) ≠ [])
    (hok : ∀ p ∈ assignments.filter (fun p => p.2.length > 0),
      (fetch p.1 (labelOf processes p.1) p.2).isOk = true) :
    (runFullSimulation fetch processes assignments st).simPhase = .complete ∧
    (runFullSimulation fetch processes assignments st).simResults
      = (assignments.filter (fun p => p.2.length > 0)).map (fetchedEntry fetch processes) ∧
    1 ≤ (runFullSimulation fetch processes assignments st).simResults.length ∧
    ∃ agg, (runFullSimulation fetch processes assignments st).simAggregate = some agg ∧
      agg.cycle_time_before
        = ((runFullSimulation fetch processes assignments st).simResults.map
            (fun r => r.simulation.cycle_time_before)).sum
          / ((runFullSimulation fetch processes assignments st).simResults.length : ℚ) ∧
      agg.cycle_time_after
        = ((runFullSimulation fetch processes assignments st).simResults.map
            (fun r => r.simulation.cycle_time_after)).sum
          / ((runFullSimulation fetch processes assignments st).simResults.length : ℚ) ∧
      agg.cycle_reduction_pct
        = ((runFullSimulation fetch processes assignments st).simResults.map
            (fun r => r.simulation.cycle_reduction_pct)).sum
          / ((runFullSimulation fetch processes assignments st).simResults.length : ℚ) ∧
      agg.throughput_gain_pct
        = ((runFullSimulation fetch processes assignments st).simResults.map
            (fun r => r.simulation.throughput_gain_pct)).sum
          / ((runFullSimulation fetch processes assignments st).simResults.length : ℚ) ∧
      agg.impact_score
        = ((runFullSimulation fetch processes assignments st).simResults.map
            (fun r => r.simulation.impact_score)).sum
          / ((runFullSimulation fetch processes assignments st).simResults.length : ℚ) ∧
      agg.opex_increase
        = ((runFullSimulation fetch processes assignments st).simResults.map
            (fun r => r.simulation.opex_increase)).sum ∧
      (agg.is_bottleneck = true ↔
        ∃ r ∈ (runFullSimulation fetch processes assignments st).simResults,
          r.simulation.is_bottleneck = true) := by
  have hcond : ¬((assignments.filter (fun p => p.2.length > 0)).length = 0) := by
    rw [List.length_eq_zero]
    exact hne
  have hrun : runFullSimulation fetch processes assignments st
      = simLoop fetch processes (assignments.filter (fun p => p.2.length > 0)).length
          (assignments.filter (fun p => p.2.length > 0)) 0 []
          { st with showSimModal := true, simPhase := .simulating,
                    simResults := [], simAggregate := none } := by
    simp only [runFullSimulation, if_neg hcond]
  obtain ⟨h1, _h2, _h3, h4, h5, _h6, _h7, _h8⟩ := simLoop_ok fetch processes
    (assignments.filter (fun p => p.2.length > 0)).length
    (assignments.filter (fun p => p.2.length > 0)) 0 []
    { st with showSimModal := true, simPhase := .simulating,
              simResults := [], simAggregate := none } hok rfl
  rw [List.nil_append] at h4 h5
  rw [← hrun] at h1 h4 h5
  refine ⟨h1, h4, ?_, ?_⟩
  · rw [h4, List.length_map]
    have : assignments.filter (fun p => p.2.length > 0) ≠ [] := hne
    cases hfil : assignments.filter (fun p => p.2.length > 0) with
    | nil => exact absurd hfil this
    | cons a l => simp
  · rw [← h4] at h5
    exact ⟨computeAgg (runFullSimulation fetch processes assignments st).simResults, h5,
      (computeAgg_spec _).1, (computeAgg_spec _).2.1, (computeAgg_spec _).2.2.1,
      (computeAgg_spec _).2.2.2.1, (computeAgg_spec _).2.2.2.2.1,
      (computeAgg_spec _).2.2.2.2.2.1, (computeAgg_spec _).2.2.2.2.2.2⟩

end BPM

namespace BPM

/-- Assignments used by the concrete runs: three non-empty locations. -/
def assignW : List (String × List Employee) :=
  [("P1", [emp1]), ("P2", [emp2]), ("P3", [emp3])]

/-- C1 witness: on a concrete three-location run with cycle_reduction_pct
values 10, 20, 30, opex_increase 2 each and one bottleneck flag, the
aggregate has cycle_reduction_pct 20 (the mean), opex_increase 6 (the sum)
and is_bottleneck true (the OR). -/
theorem runFullSimulation_aggregate_C1_witness :
    ∃ agg, (runFullSimulation fetchW [] assignW initSimState).simAggregate = some agg ∧
      agg.cycle_reduction_pct = 20 ∧ agg.opex_increase = 6 ∧ agg.is_bottleneck = true := by
  obtain ⟨hphase, hres, hlen, agg, hagg, hf1, hf2, hf3, hf4, hf5, hf6, hf7⟩ :=
    runFullSimulation_aggregate_C1 fetchW [] assignW initSimState (by decide) (by decide)
  refine ⟨agg, hagg, ?_, ?_, ?_⟩
  · rw [hf3, hres]
    simp [assignW, fetchedEntry, fetchW, labelOf]
    norm_num
  · rw [hf6, hres]
    simp [assignW, fetchedEntry, fetchW, labelOf]
    norm_num
  · rw [hres] at hf7
    apply hf7.mpr
    refine ⟨fetchedEntry fetchW [] ("P2", [emp2]), ?_, ?_⟩
    · decide
    · decide

end BPM

namespace BPM

/-- C7: a run triggered with at least one non-empty location (all calls
succeeding) performs exactly one remote evaluation call per non-empty
location — empty locations are excluded by the filter — strictly
sequentially in ledger iteration order (the calls trace equals the map over
the filtered list), and the reported progress total (and final current)
equals the number of non-empty locations. -/
theorem runFullSimulation_calls_C7 (fetch : FetchOracle) (processes : List ProcessNode)
    (assignments : List (String × List Employee)) (st : SimModalState)
    (hne : assignments.filter (fun p => p.2.length > 0) ≠ [])
    (hok : ∀ p ∈ assignments.filter (fun p => p.2.length > 0),
      (fetch p.1 (labelOf processes p.1) p.2).isOk = true) :
    (runFullSimulation fetch processes assignments st).calls
      = st.calls ++ (assignments.filter (fun p => p.2.length > 0)).map (callOf processes) ∧
    (runFullSimulation fetch processes assignments st).simProgress.total
      = (assignments.filter (fun p => p.2.length > 0)).length ∧
    (runFullSimulation fetch processes assignments st).simProgress.current
      = (assignments.filter (fun p => p.2.length > 0)).length := by
  have hcond : ¬((assignments.filter (fun p => p.2.length > 0)).length = 0) := by
    rw [List.length_eq_zero]
    exact hne
  have hrun : runFullSimulation fetch processes assignments st
      = simLoop fetch processes (assignments.filter (fun p => p.2.length > 0)).length
          (assignments.filter (fun p => p.2.length > 0)) 0 []
          { st with showSimModal := true, simPhase := .simulating,
                    simResults := [], simAggregate := none } := by
    simp only [runFullSimulation, if_neg hcond]
  obtain ⟨_h1, _h2, _h3, _h4, _h5, h6, _h7, h8⟩ := simLoop_ok fetch processes
    (assignments.filter (fun p => p.2.length > 0)).length
    (assignments.filter (fun p => p.2.length > 0)) 0 []
    { st with showSimModal := true, simPhase := .simulating,
              simResults := [], simAggregate := none } hok rfl
  obtain ⟨hc, ht⟩ := h8 hne
  rw [← hrun] at h6 hc ht
  exact ⟨h6, ht, by rw [hc]; omega⟩

/-- C7 witness: the spec example — assignments P1 has one worker and P2 is
empty — issues exactly one remote call (for P1) and reports total = 1. -/
theorem runFullSimulation_calls_C7_witness :
    (runFullSimulation fetchW [] [("P1", [emp1]), ("P2", [])] initSimState).calls
      = [⟨"P1", "Unknown", [emp1]⟩] ∧
    (runFullSimulation fetchW [] [("P1", [emp1]), ("P2", [])] initSimState).simProgress.total
      = 1 ∧
    (runFullSimulation fetchW [] [("P1", [emp1]), ("P2", [])] initSimState).simProgress.current
      = 1 := by
  obtain ⟨hc, ht, hcur⟩ := runFullSimulation_calls_C7 fetchW []
    [("P1", [emp1]), ("P2", [])] initSimState (by decide) (by decide)
  refine ⟨?_, ?_, ?_⟩
  · rw [hc]
    decide
  · rw [ht]
    decide
  · rw [hcur]
    decide

/-- C3 (amended): if the remote call of any single step fails during the
Simulating phase, the orchestrator transitions back to Idle, hides the modal,
surfaces an error via the notify sink, and computes no aggregate; however the
per-location results of the steps completed before the failure REMAIN stored
in simResults — they are discarded only when the next run starts (runs begin
by resetting simResults to []), not at failure time. -/
theorem runFullSimulation_failure_C3 (fetch : FetchOracle) (processes : List ProcessNode)
    (assignments : List (String × List Employee)) (st : SimModalState)
    (good : List (String × List Employee)) (bad : String × List Employee)
    (rest : List (String × List Employee))
    (hsplit : assignments.filter (fun p => p.2.length > 0) = good ++ bad :: rest)
    (hok : ∀ p ∈ good, (fetch p.1 (labelOf processes p.1) p.2).isOk = true)
    (hbad : (fetch bad.1 (labelOf processes bad.1) bad.2).isOk = false) :
    (runFullSimulation fetch processes assignments st).simPhase = .idle ∧
    (runFullSimulation fetch processes assignments st).showSimModal = false ∧
    (runFullSimulation fetch processes assignments st).simResults
      = good.map (fetchedEntry fetch processes) ∧
    (runFullSimulation fetch processes assignments st).simAggregate = none ∧
    (runFullSimulation fetch processes assignments st).toasts
      = st.toasts ++ [⟨"Simulation failed", .error, none⟩] := by
  have hcond : ¬((assignments.filter (fun p => p.2.length > 0)).length = 0) := by
    rw [List.length_eq_zero, hsplit]
    exact List.append_ne_nil_of_right_ne_nil _ (List.cons_ne_nil _ _)
  have hrun : runFullSimulation fetch processes assignments st
      = simLoop fetch processes (assignments.filter (fun p => p.2.length > 0)).length
          (good ++ bad :: rest) 0 []
          { st with showSimModal := true, simPhase := .simulating,
                    simResults := [], simAggregate := none } := by
    simp only [runFullSimulation, if_neg hcond]
    rw [hsplit]
  obtain ⟨h1, h2, h3, h4, h5⟩ := simLoop_err fetch processes
    (assignments.filter (fun p => p.2.length > 0)).length good bad rest 0 []
    { st with showSimModal := true, simPhase := .simulating,
              simResults := [], simAggregate := none } hok hbad rfl
  rw [← hrun] at h1 h2 h3 h4 h5
  rw [List.nil_append] at h3
  exact ⟨h1, h2, h3, h4, h5⟩

/-- C3 witness: on a three-location run whose second call fails, the
orchestrator ends Idle with the modal hidden, an error toast, no aggregate,
and the first step's result still stored. -/
theorem runFullSimulation_failure_C3_witness :
    (runFullSimulation fetchCex [] assignW initSimState).simPhase = .idle ∧
    (runFullSimulation fetchCex [] assignW initSimState).showSimModal = false ∧
    (runFullSimulation fetchCex [] assignW initSimState).simResults
      = [fetchedEntry fetchCex [] ("P1", [emp1])] ∧
    (runFullSimulation fetchCex [] assignW initSimState).simAggregate = none ∧
    (runFullSimulation fetchCex [] assignW initSimState).toasts
      = [⟨"Simulation failed", .error, none⟩] := by
  obtain ⟨h1, h2, h3, h4, h5⟩ := runFullSimulation_failure_C3 fetchCex [] assignW initSimState
    [("P1", [emp1])] ("P2", [emp2]) [("P3", [emp3])] (by decide) (by decide) (by decide)
  exact ⟨h1, h2, by rw [h3]; rfl, h4, by rw [h5]; rfl⟩

/-- C3 counterexample: with the second of three steps failing, the
orchestrator is back in Idle but simResults is NOT empty — one partial
per-location result from the aborted run is retained, contradicting the
claim that zero partial results are kept. -/
theorem runFullSimulation_failure_cex_C3 :
    (runFullSimulation fetchCex [] assignW initSimState).simPhase = .idle ∧
    (runFullSimulation fetchCex [] assignW initSimState).simResults ≠ [] ∧
    (runFullSimulation fetchCex [] assignW initSimState).simResults.length = 1 := by
  decide

/-- C6 (amended): triggering the orchestrator when every location's assigned
sequence is empty is rejected at the entry guard: the only effect is one
notification through the notify sink — at error level, message
'No employees assigned yet', duration 3000ms — while the phase, results,
aggregate, modal flag and call trace all stay exactly as they were. -/
theorem runFullSimulation_emptyGuard_C6 (fetch : FetchOracle) (processes : List ProcessNode)
    (assignments : List (String × List Employee)) (st : SimModalState)
    (h : assignments.filter (fun p => p.2.length > 0) = []) :
    runFullSimulation fetch processes assignments st =
      { st with toasts := st.toasts ++
          [{ message := "No employees assigned yet", level := .error, durationMs := some 3000 }] } := by
  simp only [runFullSimulation, h]
  rfl

/-- C6 witness: the guard fires on a single empty location and the state is
unchanged apart from the appended error toast. -/
theorem runFullSimulation_emptyGuard_C6_witness :
    runFullSimulation fetchW [] [("P1", [])] initSimState =
      { initSimState with toasts :=
          [{ message := "No employees assigned yet", level := .error, durationMs := some 3000 }] } := by
  rw [runFullSimulation_emptyGuard_C6 fetchW [] [("P1", [])] initSimState (by decide)]
  decide

/-- C6 counterexample: the guard's notification is emitted at the `error`
level of the notify sink, not at the `info` level, so it is not an
informational notification as the claim states. -/
theorem runFullSimulation_emptyGuard_cex_C6 :
    (runFullSimulation fetchW [] [("P1", [])] initSimState).toasts
      = [{ message := "No employees assigned yet", level := .error, durationMs := some 3000 }] ∧
    ∀ t ∈ (runFullSimulation fetchW [] [("P1", [])] initSimState).toasts,
      t.level ≠ ToastLevel.info := by
  decide

end BPM

namespace BPM

/-! ### RealtimeChatTransport (FloatingChatbot) -/

inductive Sender where
  | user
  | bot
  deriving DecidableEq

/-- Chat message (interface Message); Date values are modelled as Nat. -/
structure Message where
  id : Nat
  text : String
  sender : Sender
  timestamp : Nat
  deriving DecidableEq

inductive ConnStatus where
  | connecting
  | connected
  | disconnected
  deriving DecidableEq

/-- State of the FloatingChatbot component.  `wsOpen` models
`ws.current?.readyState === WebSocket.OPEN`; `sent` is the trace of frames
transmitted with `ws.current.send`; `reconnectAttempts` counts the
`connectWebSocket` invocations that actually opened a new socket. -/
structure ChatState where
  messages : List Message
  inputValue : String
  isLoading : Bool
  connectionStatus : ConnStatus
  wsOpen : Bool
  sent : List String
  reconnectAttempts : Nat
  deriving DecidableEq

/-- `connectWebSocket`: a no-op when the socket is already OPEN; otherwise
set the status to connecting and open a fresh socket. -/
def connectWebSocket (st : ChatState) : ChatState :=
  if st.wsOpen then st
  else { st with connectionStatus := .connecting,
                 reconnectAttempts := st.reconnectAttempts + 1 }

/-- JS `s.trim()` written over the character list (drop whitespace at both
ends) so that it computes by structural recursion. -/
def strTrim (s : String) : String :=
  String.mk (((s.data.dropWhile Char.isWhitespace).reverse.dropWhile Char.isWhitespace).reverse)

/-- `handleSendMessage` of FloatingChatbot; `now` stands for `Date.now()`.
The guard returns unchanged on blank input or while a response is pending;
otherwise the user message is appended optimistically, and if the socket is
not OPEN a synthetic warning is appended, the loading flag cleared and a
reconnect attempted instead of transmitting. -/
def handleSendMessage (st : ChatState) (now : Nat) : ChatState :=
  if strTrim st.inputValue = "" ∨ st.isLoading then st
  else
    let userMsg : Message := { id := now, text := st.inputValue, sender := .user, timestamp := now }
    let st1 := { st with messages := st.messages ++ [userMsg], inputValue := "", isLoading := true }
    if st1.wsOpen then
      { st1 with sent := st1.sent ++ [userMsg.text] }
    else
      connectWebSocket
        { st1 with
          messages := st1.messages ++
            [{ id := now + 1, text := "⚠️ Disconnected. Reconnecting...", sender := .bot,
               timestamp := now }],
          isLoading := false }

/-- C8: sending a chat message (non-blank input, no response pending) while
the transport socket is not OPEN appends exactly two new messages — the
user's original text exactly once (as the first appended message) and one
synthetic bot warning — transmits nothing on the channel, clears the loading
flag, and attempts a reconnect (status back to connecting, one more
connection attempt); nothing else changes. -/
theorem handleSendMessage_disconnected_C8 (st : ChatState) (now : Nat)
    (hinput : ¬(strTrim st.inputValue = "")) (hload : st.isLoading = false)
    (hws : st.wsOpen = false) :
    handleSendMessage st now =
      { st with
        messages := st.messages ++
          [{ id := now, text := st.inputValue, sender := .user, timestamp := now },
           { id := now + 1, text := "⚠️ Disconnected. Reconnecting...", sender := .bot,
             timestamp := now }],
        inputValue := "",
        isLoading := false,
        connectionStatus := .connecting,
        reconnectAttempts := st.reconnectAttempts + 1 } := by
  simp [handleSendMessage, connectWebSocket, hinput, hload, hws]

/-- C8 witness: a concrete disconnected send appends the user text once plus
the warning, transmits nothing and bumps the reconnect counter. -/
theorem handleSendMessage_disconnected_C8_witness :
    handleSendMessage
        { messages := [], inputValue := "hello", isLoading := false,
          connectionStatus := .disconnected, wsOpen := false, sent := [],
          reconnectAttempts := 1 } 42 =
      { messages :=
          [{ id := 42, text := "hello", sender := .user, timestamp := 42 },
           { id := 43, text := "⚠️ Disconnected. Reconnecting...", sender := .bot,
             timestamp := 42 }],
        inputValue := "", isLoading := false, connectionStatus := .connecting,
        wsOpen := false, sent := [], reconnectAttempts := 2 } := by
  rw [handleSendMessage_disconnected_C8 _ 42 (by decide) rfl rfl]
  rfl

/-- C10: invoking the chat send operation with blank (empty or
whitespace-only) input, or while a response to a previous message is still
pending (isLoading set), is a complete no-op: the state — messages, sent
trace, loading flag, connection status — is returned unchanged. -/
theorem handleSendMessage_guard_C10 (st : ChatState) (now : Nat)
    (h : strTrim st.inputValue = "" ∨ st.isLoading = true) :
    handleSendMessage st now = st := by
  simp only [handleSendMessage]
  rw [if_pos]
  rcases h with h | h
  · exact Or.inl h
  · exact Or.inr h

/-- C10 witness: a whitespace-only input is a no-op, and so is a send while
loading. -/
theorem handleSendMessage_guard_C10_witness :
    handleSendMessage
        { messages := [], inputValue := "   ", isLoading := false,
          connectionStatus := .connected, wsOpen := true, sent := [],
          reconnectAttempts := 0 } 7 =
      { messages := [], inputValue := "   ", isLoading := false,
        connectionStatus := .connected, wsOpen := true, sent := [],
        reconnectAttempts := 0 } :=
  handleSendMessage_guard_C10 _ 7 (Or.inl (by decide))

end BPM

namespace BPM

/-! ### AutoScrollController (the drag auto-scroll effect of WorkforcePage) -/

/-- EDGE_SIZE: px from edge to start scrolling. -/
def EDGE_SIZE : ℚ := 80

/-- SCROLL_SPEED: px per frame. -/
def SCROLL_SPEED : ℚ := 8

/-- Vertical extent of a scrollable region (getBoundingClientRect). -/
structure Rect where
  top : ℚ
  bottom : ℚ
  deriving DecidableEq

/-- A scrollable region: its bounding rect and current scrollTop. -/
structure ScrollRegion where
  rect : Rect
  scrollTop : ℚ
  deriving DecidableEq

/-- Per-region body of handleMouseMove: scroll up within EDGE_SIZE of the
top edge, scroll down within EDGE_SIZE of the bottom edge, by
SCROLL_SPEED x intensity where intensity = 1 - distance_into_band / EDGE_SIZE. -/
def scrollRegionStep (r : ScrollRegion) (y : ℚ) : ScrollRegion :=
  if y < r.rect.top + EDGE_SIZE ∧ y > r.rect.top then
    let intensity := 1 - (y - r.rect.top) / EDGE_SIZE
    { r with scrollTop := r.scrollTop - SCROLL_SPEED * intensity }
  else if y > r.rect.bottom - EDGE_SIZE ∧ y < r.rect.bottom then
    let intensity := 1 - (r.rect.bottom - y) / EDGE_SIZE
    { r with scrollTop := r.scrollTop + SCROLL_SPEED * intensity }
  else r

/-- handleMouseMove of the auto-scroll effect: a no-op unless a drag is
active; otherwise both regions (when mounted) are scrolled independently
from the same pointer position. -/
def handleMouseMove (isDragging : Bool) (scrollEl poolEl : Option ScrollRegion) (y : ℚ) :
    Option ScrollRegion × Option ScrollRegion :=
  if isDragging = false then (scrollEl, poolEl)
  else (scrollEl.map (fun r => scrollRegionStep r y), poolEl.map (fun r => scrollRegionStep r y))

/-- C9: during an active drag, each of the two regions is updated
independently by the same per-region rule; a tick with the pointer strictly
inside the top edge band scrolls the region up by exactly
SCROLL_SPEED x intensity with intensity = 1 - distance/EDGE_SIZE in (0,1]
(and the top edge is the nearer edge), symmetrically for the bottom band,
and a pointer outside both bands leaves the region's scrollTop untouched
that tick.  The bands are disjoint because the region is at least
2 x EDGE_SIZE tall. -/
theorem autoScroll_band_C9 (r1 r2 : ScrollRegion) (y : ℚ)
    (hsize : r1.rect.top + 2 * EDGE_SIZE ≤ r1.rect.bottom) :
    handleMouseMove true (some r1) (some r2) y
      = (some (scrollRegionStep r1 y), some (scrollRegionStep r2 y)) ∧
    (r1.rect.top < y ∧ y < r1.rect.top + EDGE_SIZE →
      scrollRegionStep r1 y =
        { r1 with scrollTop :=
            r1.scrollTop - SCROLL_SPEED * (1 - (y - r1.rect.top) / EDGE_SIZE) } ∧
      0 < 1 - (y - r1.rect.top) / EDGE_SIZE ∧ 1 - (y - r1.rect.top) / EDGE_SIZE ≤ 1 ∧
      y - r1.rect.top < r1.rect.bottom - y) ∧
    (r1.rect.bottom - EDGE_SIZE < y ∧ y < r1.rect.bottom →
      scrollRegionStep r1 y =
        { r1 with scrollTop :=
            r1.scrollTop + SCROLL_SPEED * (1 - (r1.rect.bottom - y) / EDGE_SIZE) } ∧
      0 < 1 - (r1.rect.bottom - y) / EDGE_SIZE ∧ 1 - (r1.rect.bottom - y) / EDGE_SIZE ≤ 1 ∧
      r1.rect.bottom - y < y - r1.rect.top) ∧
    ((y ≤ r1.rect.top ∨ (r1.rect.top + EDGE_SIZE ≤ y ∧ y ≤ r1.rect.bottom - EDGE_SIZE) ∨
        r1.rect.bottom ≤ y) →
      scrollRegionStep r1 y = r1) := by
  have hE : (0:ℚ) < EDGE_SIZE := by norm_num [EDGE_SIZE]
  refine ⟨rfl, ?_, ?_, ?_⟩
  · rintro ⟨h1, h2⟩
    have hin : y < r1.rect.top + EDGE_SIZE ∧ y > r1.rect.top := ⟨h2, h1⟩
    refine ⟨by rw [scrollRegionStep, if_pos hin], ?_, ?_, ?_⟩
    · have : (y - r1.rect.top) / EDGE_SIZE < 1 := by
        rw [div_lt_one hE]
        linarith
      linarith
    · have : 0 ≤ (y - r1.rect.top) / EDGE_SIZE := by
        apply div_nonneg <;> linarith
      linarith
    · have h2E : 2 * EDGE_SIZE ≤ r1.rect.bottom - r1.rect.top := by linarith
      linarith
  · rintro ⟨h1, h2⟩
    have hout : ¬(y < r1.rect.top + EDGE_SIZE ∧ y > r1.rect.top) := by
      rintro ⟨ha, -⟩
      linarith
    have hin : y > r1.rect.bottom - EDGE_SIZE ∧ y < r1.rect.bottom := ⟨h1, h2⟩
    refine ⟨by rw [scrollRegionStep, if_neg hout, if_pos hin], ?_, ?_, ?_⟩
    · have : (r1.rect.bottom - y) / EDGE_SIZE < 1 := by
        rw [div_lt_one hE]
        linarith
      linarith
    · have : 0 ≤ (r1.rect.bottom - y) / EDGE_SIZE := by
        apply div_nonneg <;> linarith
      linarith
    · linarith
  · intro hout
    have hnot1 : ¬(y < r1.rect.top + EDGE_SIZE ∧ y > r1.rect.top) := by
      rintro ⟨ha, hb⟩
      rcases hout with h | ⟨h, h'⟩ | h <;> linarith
    have hnot2 : ¬(y > r1.rect.bottom - EDGE_SIZE ∧ y < r1.rect.bottom) := by
      rintro ⟨ha, hb⟩
      rcases hout with h | ⟨h, h'⟩ | h <;> linarith
    rw [scrollRegionStep, if_neg hnot1, if_neg hnot2]

/-- C9 witness: with a region spanning 0..400 and the pointer at y = 40
(distance 40 into the 80px top band, intensity 1/2), the tick scrolls that
region up by exactly 8 x 1/2 = 4 pixels, from 100 to 96. -/
theorem autoScroll_band_C9_witness :
    scrollRegionStep ⟨⟨0, 400⟩, 100⟩ 40 = ⟨⟨0, 400⟩, 96⟩ ∧
    handleMouseMove true (some ⟨⟨0, 400⟩, 100⟩) (some ⟨⟨0, 400⟩, 0⟩) 40
      = (some (scrollRegionStep ⟨⟨0, 400⟩, 100⟩ 40), some (scrollRegionStep ⟨⟨0, 400⟩, 0⟩ 40)) := by
  obtain ⟨hpair, htop, -, -⟩ :=
    autoScroll_band_C9 ⟨⟨0, 400⟩, 100⟩ ⟨⟨0, 400⟩, 0⟩ 40 (by norm_num [EDGE_SIZE])
  obtain ⟨heq, -, -, -⟩ := htop (by norm_num [EDGE_SIZE])
  refine ⟨?_, hpair⟩
  rw [heq]
  have : (100:ℚ) - SCROLL_SPEED * (1 - (40 - 0) / EDGE_SIZE) = 96 := by
    norm_num [SCROLL_SPEED, EDGE_SIZE]
  rw [this]

end BPM

namespace BPM

/-- C2 witness: after a concrete pool-to-process drag from the initial
ledger, the worker multiset is still the full seed staff and emp-1's id
still occurs exactly once across all locations. -/
theorem ledger_partition_invariant_C2_witness :
    ((initWPState ["p1"]).runEvents
        [.drag ⟨⟨"employee-pool", 0⟩, some ⟨"process-p1", 0⟩⟩]).workers
      = (initialEmployees : Multiset Employee) ∧
    ((((initWPState ["p1"]).runEvents
        [.drag ⟨⟨"employee-pool", 0⟩, some ⟨"process-p1", 0⟩⟩]).locSeqs).map
      (fun l => l.countP (fun e => e.id == emp1.id))).sum = 1 := by
  obtain ⟨h1, h2⟩ := ledger_partition_invariant_C2 ["p1"]
    [.drag ⟨⟨"employee-pool", 0⟩, some ⟨"process-p1", 0⟩⟩]
  exact ⟨h1, h2 emp1 (by decide)⟩

end BPM
